import Mathlib

/-!
Shallow embedding of the color-management core (Nahara color library):
3x3 matrix math, tone curves with binary-search inversion, RGB<->XYZ matrix
derivation, the ICC binary field codec, the ICC header / tag-table parser and
the two profile implementations.  Machine arithmetic follows JavaScript
semantics made exact: bitwise operations on 32-bit values are translated to
arithmetic on the two's-complement bit pattern (`% 2^32` plus a sign split),
out-of-range `Uint8Array` reads coerce to 0 inside arithmetic, and IEEE-754
rounding is idealized to exact rational / real arithmetic.
-/

namespace ColorSpec

/-! ## math module (src math.ts) -/

/-- A 3x3 matrix, row major, mirroring the `Matrix3x3` interface. -/
structure Matrix3x3 (α : Type) where
  m00 : α
  m01 : α
  m02 : α
  m10 : α
  m11 : α
  m12 : α
  m20 : α
  m21 : α
  m22 : α
deriving DecidableEq

/-- A vector with 3 components, mirroring the `Vector3` / `XyzColor` / `Xyz`
interfaces (structurally identical records in the source). -/
structure Vector3 (α : Type) where
  x : α
  y : α
  z : α
deriving DecidableEq

/-- The determinant expression `det` computed inline at the top of `invertMat`. -/
def detMat {α : Type} [Field α] (m : Matrix3x3 α) : α :=
  m.m00 * (m.m11 * m.m22 - m.m21 * m.m12) -
    m.m01 * (m.m10 * m.m22 - m.m12 * m.m20) +
    m.m02 * (m.m10 * m.m21 - m.m11 * m.m20)

/-- `invertMat`: adjugate-over-determinant inverse of a 3x3 matrix, entry by
entry as in the source (`invdet = 1 / det`). -/
def invertMat {α : Type} [Field α] (m : Matrix3x3 α) : Matrix3x3 α :=
  let invdet := 1 / detMat m
  { m00 :=  (m.m11 * m.m22 - m.m12 * m.m21) * invdet
    m01 := -(m.m01 * m.m22 - m.m02 * m.m21) * invdet
    m02 :=  (m.m01 * m.m12 - m.m02 * m.m11) * invdet
    m10 := -(m.m10 * m.m22 - m.m12 * m.m20) * invdet
    m11 :=  (m.m00 * m.m22 - m.m02 * m.m20) * invdet
    m12 := -(m.m00 * m.m12 - m.m02 * m.m10) * invdet
    m20 :=  (m.m10 * m.m21 - m.m11 * m.m20) * invdet
    m21 := -(m.m00 * m.m21 - m.m01 * m.m20) * invdet
    m22 :=  (m.m00 * m.m11 - m.m01 * m.m10) * invdet }

/-- `matMulMV`: matrix-vector product `M * v`. -/
def matMulMV {α : Type} [Field α] (m : Matrix3x3 α) (x y z : α) : Vector3 α :=
  { x := m.m00 * x + m.m01 * y + m.m02 * z
    y := m.m10 * x + m.m11 * y + m.m12 * z
    z := m.m20 * x + m.m21 * y + m.m22 * z }

/-- `clamp01`: the two sequential reassignments `if (x < 0) x = 0; if (x > 1) x = 1`. -/
def clamp01 {α : Type} [LinearOrderedField α] (x : α) : α :=
  let x1 := if x < 0 then 0 else x
  if x1 > 1 then 1 else x1

/-! ## curve module (src curve.ts) -/

/-- The `Curve` tagged union: `identity`, `gamma` and `lut` variants.
Curve values live in the exact-real idealization of JS numbers. -/
inductive Curve where
  | identity : Curve
  | gamma (gamma : ℝ) : Curve
  | lut (values : List ℝ) : Curve

/-- The `while (low <= high)` loop body of `binarySearch`.  JS `(low + high) >> 1`
is floor division by 2, which is `Int` division `/ 2` in Lean.  The list read
`array[mid]` is always in range when called from `binarySearch` (the `getD`
default `value` reproduces the JS behavior that an `undefined` element compares
false on both `<` tests and returns `mid`). -/
def binarySearchAux {α : Type} [LinearOrder α] (array : List α) (value : α)
    (low high : ℤ) : ℤ :=
  if low ≤ high then
    if array.getD ((low + high) / 2).toNat value < value then
      binarySearchAux array value ((low + high) / 2 + 1) high
    else if value < array.getD ((low + high) / 2).toNat value then
      binarySearchAux array value low ((low + high) / 2 - 1)
    else (low + high) / 2
  else -(low + 1)
termination_by (high + 1 - low).toNat
decreasing_by all_goals omega

/-- `binarySearch(array, value)`: index of `value` if found, otherwise
`-(insertionPoint + 1)`. -/
def binarySearch {α : Type} [LinearOrder α] (array : List α) (value : α) : ℤ :=
  binarySearchAux array value 0 ((array.length : ℤ) - 1)

/-- JS `Math.round` (round half toward positive infinity). -/
noncomputable def jsRound (t : ℝ) : ℤ := ⌊t + 1 / 2⌋

/-- `apply(curve, x)`: identity, `x ** gamma` (real power), or nearest-sample
lookup `values[Math.round((length - 1) * x)]`.  An out-of-range JS index would
read `undefined`; the `getD` default 0 is never reached for `x` in `[0, 1]`. -/
noncomputable def Curve.apply (curve : Curve) (x : ℝ) : ℝ :=
  match curve with
  | .identity => x
  | .gamma g => x ^ g
  | .lut values => values.getD (jsRound (((values.length : ℝ) - 1) * x)).toNat 0

/-- `applyInverse(curve, y)`: identity, `y ** (1 / gamma)`, or the normalized
binary-search index `insert / (values.length - 1)` with
`insert = search >= 0 ? search : -search - 1`. -/
noncomputable def Curve.applyInverse (curve : Curve) (y : ℝ) : ℝ :=
  match curve with
  | .identity => y
  | .gamma g => y ^ (1 / g)
  | .lut values =>
    ((if 0 ≤ binarySearch values y then binarySearch values y
      else -(binarySearch values y) - 1 : ℤ) : ℝ) / ((values.length : ℝ) - 1)

/-! ## rgb module (src rgb.ts) -/

/-- `Chromaticity`: CIE 1931 xy coordinates. -/
structure Chromaticity where
  x : ℝ
  y : ℝ

/-- `WhitePoint`: white chromaticity plus luminance in cd/m^2. -/
structure WhitePoint where
  chromaticity : Chromaticity
  luminance : ℝ

/-- `RgbPrimary`: a colorant chromaticity together with its transfer curve. -/
structure RgbPrimary where
  chromaticity : Chromaticity
  trc : Curve

/-- `RgbPrimaries`: the three primaries. -/
structure RgbPrimaries where
  r : RgbPrimary
  g : RgbPrimary
  b : RgbPrimary

/-- `RgbProfileInfo`: serializable profile description. -/
structure RgbProfileInfo where
  primaries : RgbPrimaries
  whitePoint : WhitePoint

/-- `RgbMatrices`: forward (`xyz`) and inverse (`rgb`) conversion matrices. -/
structure RgbMatrices where
  xyz : Matrix3x3 ℝ
  rgb : Matrix3x3 ℝ

/-- The matrix of lifted primaries built inline in `calcMatrices`: column `i` is
the chromaticity of primary `i` lifted to `{x, y, z = 1 - x - y}`. -/
def primariesMatrix (r g b : Chromaticity) : Matrix3x3 ℝ :=
  { m00 := r.x, m01 := g.x, m02 := b.x
    m10 := r.y, m11 := g.y, m12 := b.y
    m20 := 1 - r.x - r.y, m21 := 1 - g.x - g.y, m22 := 1 - b.x - b.y }

/-- `calcMatrices(r, g, b, w)`: scale each lifted-primary column by the
component of `invertMat(S) * w`, then pair the result with its inverse. -/
noncomputable def calcMatrices (r g b : Chromaticity) (w : Vector3 ℝ) : RgbMatrices :=
  let k := matMulMV (invertMat (primariesMatrix r g b)) w.x w.y w.z
  let M : Matrix3x3 ℝ :=
    { m00 := r.x * k.x, m01 := g.x * k.y, m02 := b.x * k.z
      m10 := r.y * k.x, m11 := g.y * k.y, m12 := b.y * k.z
      m20 := (1 - r.x - r.y) * k.x, m21 := (1 - g.x - g.y) * k.y
      m22 := (1 - b.x - b.y) * k.z }
  { xyz := M, rgb := invertMat M }

/-- `RgbConversionInfo`: the SDR and HDR matrix pairs. -/
structure RgbConversionInfo where
  sdr : RgbMatrices
  hdr : RgbMatrices

/-- The SDR white tristimulus built in `calcConversionInfo`: the raw white
chromaticity lifted to `{x, y, 1 - x - y}` (note that its Y component is the
chromaticity y, not 1). -/
def sdrWhitePoint (w : WhitePoint) : Vector3 ℝ :=
  { x := w.chromaticity.x
    y := w.chromaticity.y
    z := 1 - w.chromaticity.x - w.chromaticity.y }

/-- The HDR white tristimulus of `calcConversionInfo`: the SDR one scaled by
the luminance. -/
def hdrWhitePoint (w : WhitePoint) : Vector3 ℝ :=
  { x := (sdrWhitePoint w).x * w.luminance
    y := (sdrWhitePoint w).y * w.luminance
    z := (sdrWhitePoint w).z * w.luminance }

/-- `calcConversionInfo(r, g, b, w)`: SDR and HDR matrix pairs from the two
white tristimuli above. -/
noncomputable def calcConversionInfo (r g b : Chromaticity) (w : WhitePoint) :
    RgbConversionInfo :=
  { sdr := calcMatrices r g b (sdrWhitePoint w)
    hdr := calcMatrices r g b (hdrWhitePoint w) }

/-- `RgbColor`: an r/g/b triple. -/
structure RgbColor where
  r : ℝ
  g : ℝ
  b : ℝ

/-- The `RgbProfile` class: serializable info plus the conversion matrices the
constructor computes once. -/
structure RgbProfile where
  serializable : RgbProfileInfo
  conversion : RgbConversionInfo

/-- The `RgbProfile` constructor. -/
noncomputable def mkRgbProfile (info : RgbProfileInfo) : RgbProfile :=
  { serializable := info
    conversion := calcConversionInfo info.primaries.r.chromaticity
      info.primaries.g.chromaticity info.primaries.b.chromaticity info.whitePoint }

/-- `RgbProfile.toXyz`: clamp, linearize through each channel's inverse curve,
then multiply by the SDR or HDR forward matrix. -/
noncomputable def RgbProfile.toXyz (p : RgbProfile) (c : RgbColor) (hdr : Bool) :
    Vector3 ℝ :=
  let r := (p.serializable.primaries.r.trc).applyInverse (clamp01 c.r)
  let g := (p.serializable.primaries.g.trc).applyInverse (clamp01 c.g)
  let b := (p.serializable.primaries.b.trc).applyInverse (clamp01 c.b)
  matMulMV (if hdr then p.conversion.hdr else p.conversion.sdr).xyz r g b

/-- `RgbProfile.fromXyz`: multiply by the inverse matrix, clamp, then apply
each channel's forward curve. -/
noncomputable def RgbProfile.fromXyz (p : RgbProfile) (v : Vector3 ℝ) (hdr : Bool) :
    RgbColor :=
  let lin := matMulMV (if hdr then p.conversion.hdr else p.conversion.sdr).rgb v.x v.y v.z
  { r := (p.serializable.primaries.r.trc).apply (clamp01 lin.x)
    g := (p.serializable.primaries.g.trc).apply (clamp01 lin.y)
    b := (p.serializable.primaries.b.trc).apply (clamp01 lin.z) }

/-- The built-in `srgb` profile constant: sRGB primaries, gamma 2.2, D65 white
at 80 cd/m^2. -/
noncomputable def srgb : RgbProfileInfo :=
  { primaries :=
      { r := { chromaticity := { x := 0.64, y := 0.33 }, trc := .gamma 2.2 }
        g := { chromaticity := { x := 0.30, y := 0.60 }, trc := .gamma 2.2 }
        b := { chromaticity := { x := 0.15, y := 0.06 }, trc := .gamma 2.2 } }
    whitePoint := { chromaticity := { x := 0.3127, y := 0.3290 }, luminance := 80 } }

/-! ## icc datatype module (src icc datatype.ts)

Buffers are lists of bytes (naturals below 256 in well-formed states).  JS
bitwise expressions are translated to arithmetic on the 32-bit two's-complement
pattern: `toUint32 v = v % 2^32` is the pattern of the int32 `v`, and `sint32`
reads a pattern back as a signed JS number.  An out-of-range `Uint8Array` read
yields `undefined`, which coerces to 0 inside `<<` and `|`; an out-of-range
write is ignored. -/

/-- Read `buffer[i]`, with out-of-range (or negative) indices giving the 0 that
`undefined` coerces to inside the arithmetic contexts the codec uses. -/
def byteAt (buffer : List ℕ) (i : ℤ) : ℕ :=
  if 0 ≤ i ∧ i < (buffer.length : ℤ) then buffer.getD i.toNat 0 else 0

/-- Write `buffer[i] = v` on a `Uint8Array`: the value is reduced mod 256 and an
out-of-range index is ignored. -/
def writeByte (buffer : List ℕ) (i : ℤ) (v : ℕ) : List ℕ :=
  if 0 ≤ i ∧ i < (buffer.length : ℤ) then buffer.set i.toNat (v % 256) else buffer

/-- Interpret a 32-bit pattern as the signed JS number `ToInt32` produces. -/
def sint32 (p : ℕ) : ℤ := if p < 2 ^ 31 then (p : ℤ) else (p : ℤ) - 2 ^ 32

/-- The 32-bit two's-complement pattern of a JS integer value. -/
def pat32 (v : ℤ) : ℕ := (v % 4294967296).toNat

/-- `getUint16`: `(b0 << 8) | b1` (no sign involvement below 2^31). -/
def getUint16 (buffer : List ℕ) (offset : ℤ) : ℤ :=
  (byteAt buffer (offset + 0) : ℤ) * 256 + (byteAt buffer (offset + 1) : ℤ)

/-- `setUint16`: stores `(value & 0xFF00) >> 8` and `value & 0x00FF`, i.e. the
two low base-256 digits of the value's bit pattern. -/
def setUint16 (buffer : List ℕ) (value : ℤ) (offset : ℤ) : List ℕ :=
  writeByte (writeByte buffer (offset + 0) (pat32 value / 256 % 256))
    (offset + 1) (pat32 value % 256)

/-- `getUint32`: `(b0 << 24) | (b1 << 16) | (b2 << 8) | b3`.  The `<< 24`
overflows into the int32 sign bit, so the JS result is the signed reading of
the 4-byte pattern. -/
def getUint32 (buffer : List ℕ) (offset : ℤ) : ℤ :=
  sint32 (byteAt buffer (offset + 0) * 2 ^ 24 + byteAt buffer (offset + 1) * 2 ^ 16 +
    byteAt buffer (offset + 2) * 2 ^ 8 + byteAt buffer (offset + 3))

/-- `setUint32`: the four masked/shifted byte stores write exactly the base-256
digits of the value's 32-bit pattern (the sign-propagating `>> 24` on the
negative masked top byte is cancelled by the `Uint8Array` mod-256 store). -/
def setUint32 (buffer : List ℕ) (value : ℤ) (offset : ℤ) : List ℕ :=
  writeByte (writeByte (writeByte (writeByte buffer
    (offset + 0) (pat32 value / 2 ^ 24))
    (offset + 1) (pat32 value / 2 ^ 16 % 256))
    (offset + 2) (pat32 value / 2 ^ 8 % 256))
    (offset + 3) (pat32 value % 256)

/-- `getUint64`: big-endian BigInt from 8 bytes (nonnegative, exact). -/
def getUint64 (buffer : List ℕ) (offset : ℤ) : ℕ :=
  byteAt buffer (offset + 0) * 2 ^ 56 + byteAt buffer (offset + 1) * 2 ^ 48 +
    byteAt buffer (offset + 2) * 2 ^ 40 + byteAt buffer (offset + 3) * 2 ^ 32 +
    byteAt buffer (offset + 4) * 2 ^ 24 + byteAt buffer (offset + 5) * 2 ^ 16 +
    byteAt buffer (offset + 6) * 2 ^ 8 + byteAt buffer (offset + 7)

/-- `getS15Fixed16`: split the 32-bit pattern `u` of `getUint32` into sign bit
(`raw & 0x80000000`), 15 integer bits (`(raw & 0x7FFF0000) >> 16`) and 16
fraction bits; the negative branch `~(~int & 0x7FFF)` equals `int - 0x8000` in
two's complement. -/
def getS15Fixed16 (buffer : List ℕ) (offset : ℤ) : ℚ :=
  let u : ℕ := pat32 (getUint32 buffer offset)
  let int : ℕ := u / 2 ^ 16 % 2 ^ 15
  let frac : ℕ := u % 2 ^ 16
  ((if 2 ^ 31 ≤ u then (int : ℤ) - 32768 else (int : ℤ) : ℤ) : ℚ) + (frac : ℚ) / 65536

/-- `setS15Fixed16`: `sint = Math.floor(value)`, `frac = Math.floor((value - sint)
* 0x10000)`, then `raw = ((sint & 0xFFFF) << 16) | frac`; the pattern of `raw`
is `(sint mod 2^16) * 2^16 + frac`, read back signed by the `<< 16` overflow.
Float rounding is not modelled (exact for the 16.16-representable range). -/
def setS15Fixed16 (buffer : List ℕ) (value : ℚ) (offset : ℤ) : List ℕ :=
  let sint : ℤ := ⌊value⌋
  let frac : ℤ := ⌊(value - sint) * 65536⌋
  setUint32 buffer (sint32 ((sint % 65536).toNat * 2 ^ 16 + frac.toNat)) offset

/-- `getU16Fixed16`: `(raw & 0xFFFF0000) >> 16` uses the sign-propagating
shift, so for patterns with the top bit set the integer part comes back
2^16 too small (kept faithful to the source). -/
def getU16Fixed16 (buffer : List ℕ) (offset : ℤ) : ℚ :=
  let u := pat32 (getUint32 buffer offset)
  let int : ℤ := if u < 2 ^ 31 then (u / 2 ^ 16 : ℕ) else ((u / 2 ^ 16 : ℕ) : ℤ) - 65536
  (int : ℚ) + ((u % 2 ^ 16 : ℕ) : ℚ) / 65536

/-- `getXyz`: three consecutive `s15Fixed16` values. -/
def getXyz (buffer : List ℕ) (offset : ℤ) : Vector3 ℚ :=
  { x := getS15Fixed16 buffer (offset + 0)
    y := getS15Fixed16 buffer (offset + 4)
    z := getS15Fixed16 buffer (offset + 8) }

/-- JS `TypedArray.subarray(begin, end)`: negative indices count from the end,
then both are clamped to `[0, length]`. -/
def jsSubarray (buffer : List ℕ) (b e : ℤ) : List ℕ :=
  let n : ℤ := buffer.length
  let b' : ℤ := if b < 0 then max (n + b) 0 else min b n
  let e' : ℤ := if e < 0 then max (n + e) 0 else min e n
  (buffer.drop b'.toNat).take (e' - b').toNat

/-- `getSignature`: the 4 bytes at `offset` as a character-code sequence
(`String.fromCharCode` is injective on byte values, so the code list stands for
the JS string). -/
def getSignature (buffer : List ℕ) (offset : ℤ) : List ℕ :=
  jsSubarray buffer offset (offset + 4)

/-- The six big-endian uint16 fields `getDatetime` reads and passes to the
`Date` constructor; the `Date` value is represented by its constructor
arguments. -/
structure DateTimeRaw where
  year : ℤ
  month : ℤ
  day : ℤ
  hours : ℤ
  minutes : ℤ
  seconds : ℤ
deriving DecidableEq

/-- `getDatetime`: six consecutive uint16 fields. -/
def getDatetime (buffer : List ℕ) (offset : ℤ) : DateTimeRaw :=
  { year := getUint16 buffer (offset + 0)
    month := getUint16 buffer (offset + 2)
    day := getUint16 buffer (offset + 4)
    hours := getUint16 buffer (offset + 6)
    minutes := getUint16 buffer (offset + 8)
    seconds := getUint16 buffer (offset + 10) }

/-! ## icc header module (src icc header.ts) -/

/-- The `IccHeader` record `getHeader` returns.  Signatures are character-code
lists; `deviceAttributes` keeps the exact uint64 (the JS `Number` conversion is
exact below 2^53 and is idealized as exact). -/
structure IccHeader where
  profileSize : ℤ
  preferredCmmType : List ℕ
  version : ℕ × ℕ × ℕ
  profileClass : List ℕ
  profileSpace : List ℕ
  pcsSpace : List ℕ
  creationDate : DateTimeRaw
  creationPlatform : List ℕ
  profileFlags : ℤ
  deviceManufacturer : List ℕ
  deviceModel : List ℕ
  deviceAttributes : ℕ
  renderingIntent : ℤ
  pcsWhitePoint : Vector3 ℚ
deriving DecidableEq

/-- `getHeader(buffer, offset)`.  Only `profileSize`, `preferredCmmType` and the
version bytes add the `offset` parameter; every later field is read at an
absolute position (`getSignature(buffer, 12)` and so on), exactly as in the
source. -/
def getHeader (buffer : List ℕ) (offset : ℤ) : IccHeader :=
  { profileSize := getUint32 buffer (offset + 0)
    preferredCmmType := getSignature buffer (offset + 4)
    version := (byteAt buffer (offset + 8), byteAt buffer (offset + 9) % 16,
      byteAt buffer (offset + 9) / 16)
    profileClass := getSignature buffer 12
    profileSpace := getSignature buffer 16
    pcsSpace := getSignature buffer 20
    creationDate := getDatetime buffer 24
    creationPlatform := getSignature buffer 40
    profileFlags := getUint32 buffer 44
    deviceManufacturer := getSignature buffer 48
    deviceModel := getSignature buffer 52
    deviceAttributes := getUint64 buffer 56
    renderingIntent := getUint32 buffer 64
    pcsWhitePoint := getXyz buffer 68 }

/-! ## icc tag module (src icc tag.ts) -/

/-- The `TagData` tagged union: decoded `"XYZ "`, `"curv"` and `"chrm"`
payloads.  `curv` samples are uint16 values; `chrm` channels are
`u16Fixed16` pairs. -/
inductive TagData where
  | xyzData (values : List (Vector3 ℚ)) : TagData
  | curvData (values : List ℤ) : TagData
  | chrmData (colorantType : ℤ) (channels : List (ℚ × ℚ)) : TagData
deriving DecidableEq

/-- A `Tag` record: signature, offset and size from the tag table, plus the
decoded payload when the type signature was recognized. -/
structure Tag where
  signature : List ℕ
  offset : ℤ
  size : ℤ
  data : Option TagData
deriving DecidableEq

/-- The `"XYZ "` parser's `while (xyzBase < offset + size)` loop, advancing 12
bytes per iteration. -/
def parseXyzAux (buffer : List ℕ) (stop : ℤ) (base : ℤ) : List (Vector3 ℚ) :=
  if base < stop then getXyz buffer base :: parseXyzAux buffer stop (base + 12)
  else []
termination_by (stop - base).toNat
decreasing_by omega

/-- The `"XYZ "` tag-data parser: skip the 8-byte type prefix, then 12-byte
triples until `size` bytes are consumed. -/
def parseXyzData (buffer : List ℕ) (offset size : ℤ) : TagData :=
  .xyzData (parseXyzAux buffer (offset + size) (offset + 8))

/-- The `"curv"` tag-data parser: uint32 count at `offset + 8`, then that many
uint16 samples from `offset + 12`. -/
def parseCurvData (buffer : List ℕ) (offset : ℤ) : TagData :=
  .curvData ((List.range (getUint32 buffer (offset + 8)).toNat).map fun i =>
    getUint16 buffer (offset + 12 + (i : ℤ) * 2))

/-- The `"chrm"` tag-data parser: channel count and colorant type, then a
`u16Fixed16` x/y pair per channel. -/
def parseChrmData (buffer : List ℕ) (offset : ℤ) : TagData :=
  .chrmData (getUint16 buffer (offset + 10))
    ((List.range (getUint16 buffer (offset + 8)).toNat).map fun i =>
      (getU16Fixed16 buffer (offset + 12 + (i : ℤ) * 8),
       getU16Fixed16 buffer (offset + 16 + (i : ℤ) * 8)))

/-- Character codes of `"XYZ "`. -/
def xyzSig : List ℕ := [88, 89, 90, 32]

/-- Character codes of `"curv"`. -/
def curvSig : List ℕ := [99, 117, 114, 118]

/-- Character codes of `"chrm"`. -/
def chrmSig : List ℕ := [99, 104, 114, 109]

/-- The `tagDataParsers` dispatch map: parse the payload when the type
signature is registered, otherwise leave `data` unset. -/
def tagDataFor (buffer : List ℕ) (typeSignature : List ℕ) (offset size : ℤ) :
    Option TagData :=
  if typeSignature = xyzSig then some (parseXyzData buffer offset size)
  else if typeSignature = curvSig then some (parseCurvData buffer offset)
  else if typeSignature = chrmSig then some (parseChrmData buffer offset)
  else none

/-- JS object assignment `table[signature] = tag`: overwrite in place if the
key exists (keeping its position, as JS string-keyed objects do), else append. -/
def tableSet (table : List (List ℕ × Tag)) (key : List ℕ) (tag : Tag) :
    List (List ℕ × Tag) :=
  match table with
  | [] => [(key, tag)]
  | (k, t) :: rest =>
    if k = key then (key, tag) :: rest else (k, t) :: tableSet rest key tag

/-- `getTagTable(buffer, start, offset)`: uint32 tag count at `start + offset`,
then one 12-byte entry per tag (signature, offset, size), each with its payload
parsed through the dispatch map.  A count with the top bit set is a negative
JS number, so `toNat` (zero iterations) matches the `for` loop. -/
def getTagTable (buffer : List ℕ) (start offset : ℤ) : List (List ℕ × Tag) :=
  (List.range (getUint32 buffer (start + offset + 0)).toNat).foldl
    (fun table i =>
      let base := start + offset + 4 + (i : ℤ) * 12
      let signature := getSignature buffer (base + 0)
      let tagOffset := getUint32 buffer (base + 4)
      let tagSize := getUint32 buffer (base + 8)
      let typeSignature := getSignature buffer (start + tagOffset)
      tableSet table signature
        { signature := signature, offset := tagOffset, size := tagSize
          data := tagDataFor buffer typeSignature (start + tagOffset) tagSize })
    []

/-! ## icc profile module (src icc profile.ts) -/

/-- The typed view of the `IccTagTable` interface restricted to the fields the
RGB profile constructor dereferences; a present tag carries its decoded data
values (`XyzTagData.values` for the colorant tags, `CurveTagData.values` for
the TRC tags). -/
structure IccTags where
  rXYZ : Option (List (Vector3 ℚ))
  gXYZ : Option (List (Vector3 ℚ))
  bXYZ : Option (List (Vector3 ℚ))
  rTRC : Option (List ℤ)
  gTRC : Option (List ℤ)
  bTRC : Option (List ℤ)

/-- `IccProfileInfo`: parsed header plus tag table. -/
structure IccProfileInfo where
  header : IccHeader
  tags : IccTags

/-- Failures the untyped JS code can produce: the `TypeError` thrown when a
`!`-asserted missing value is dereferenced, and the explicit
`Unsupported color space` `Error` thrown by `profileOf`.  The code throws no
other error from profile construction (in particular none naming a missing
tag). -/
inductive JsError where
  | typeError : JsError
  | unsupportedColorSpace (signature : List ℕ) : JsError
deriving DecidableEq

/-- `curveOf(curv)`: zero samples is identity; one sample is a `u8Fixed8`
gamma (`(raw & 0xFF00) >> 8` plus `(raw & 0x00FF) / 0x100`); two or more
samples become a lookup table normalized by 65535. -/
noncomputable def curveOf (values : List ℤ) : Curve :=
  match values with
  | [] => .identity
  | [v] => .gamma (((v.toNat / 256 % 256 : ℕ) : ℝ) + ((v.toNat % 256 : ℕ) : ℝ) / 256)
  | vs => .lut (vs.map fun v => ((v : ℝ) / 65535))

/-- The `IccRgbProfile` class fields: the XYZ matrix assembled from the first
`rXYZ`/`gXYZ`/`bXYZ` triples, its inverse, and the three transfer curves
`trc[0]`, `trc[1]`, `trc[2]`. -/
structure IccRgbProfile where
  serializable : IccProfileInfo
  xyzMatrix : Matrix3x3 ℝ
  rgbMatrix : Matrix3x3 ℝ
  trc0 : Curve
  trc1 : Curve
  trc2 : Curve

/-- The `IccRgbProfile` constructor.  Each `icc.tags.<tag>!.data.values`
dereference throws a JS `TypeError` when the tag is absent (and
`values[0].x` throws when the value list is empty); there is no missing-tag
check, so every failure is `JsError.typeError`. -/
noncomputable def mkIccRgbProfile (icc : IccProfileInfo) :
    Except JsError IccRgbProfile :=
  match icc.tags.rXYZ with
  | none => .error .typeError
  | some rvs =>
    match rvs with
    | [] => .error .typeError
    | r0 :: _ =>
      match icc.tags.gXYZ with
      | none => .error .typeError
      | some gvs =>
        match gvs with
        | [] => .error .typeError
        | g0 :: _ =>
          match icc.tags.bXYZ with
          | none => .error .typeError
          | some bvs =>
            match bvs with
            | [] => .error .typeError
            | b0 :: _ =>
              let M : Matrix3x3 ℝ :=
                { m00 := (r0.x : ℝ), m01 := (g0.x : ℝ), m02 := (b0.x : ℝ)
                  m10 := (r0.y : ℝ), m11 := (g0.y : ℝ), m12 := (b0.y : ℝ)
                  m20 := (r0.z : ℝ), m21 := (g0.z : ℝ), m22 := (b0.z : ℝ) }
              match icc.tags.rTRC with
              | none => .error .typeError
              | some rcv =>
                match icc.tags.gTRC with
                | none => .error .typeError
                | some gcv =>
                  match icc.tags.bTRC with
                  | none => .error .typeError
                  | some bcv =>
                    .ok { serializable := icc
                          xyzMatrix := M
                          rgbMatrix := invertMat M
                          trc0 := curveOf rcv
                          trc1 := curveOf gcv
                          trc2 := curveOf bcv }

/-- Character codes of the `"RGB "` color-space signature. -/
def rgbSpaceSig : List ℕ := [82, 71, 66, 32]

/-- `profileOf(icc)`: dispatch on the header color space; only RGB is
implemented, anything else throws the unsupported-color-space error. -/
noncomputable def profileOf (icc : IccProfileInfo) : Except JsError IccRgbProfile :=
  if icc.header.profileSpace = rgbSpaceSig then mkIccRgbProfile icc
  else .error (.unsupportedColorSpace icc.header.profileSpace)

/-- `IccRgbProfile.toXyz([r, g, b], _hdr)`: each channel through its own
forward curve, then the XYZ matrix.  The `_hdr` parameter is unused in the
source.  JS array destructuring of a shorter list gives `undefined`; the `getD`
default 0 stands in for that unreachable case. -/
noncomputable def IccRgbProfile.toXyz (p : IccRgbProfile) (c : List ℝ)
    (_hdr : Bool) : Vector3 ℝ :=
  matMulMV p.xyzMatrix (p.trc0.apply (c.getD 0 0)) (p.trc1.apply (c.getD 1 0))
    (p.trc2.apply (c.getD 2 0))

/-- `IccRgbProfile.fromXyz({x, y, z}, _hdr)`: inverse matrix, then `trc[0]`'s
inverse curve applied to all three channels (the source indexes `this.trc[0]`
three times).  The `_hdr` parameter is unused in the source. -/
noncomputable def IccRgbProfile.fromXyz (p : IccRgbProfile) (v : Vector3 ℝ)
    (_hdr : Bool) : List ℝ :=
  let lin := matMulMV p.rgbMatrix v.x v.y v.z
  [p.trc0.applyInverse lin.x, p.trc0.applyInverse lin.y, p.trc0.applyInverse lin.z]

/-! ## Helper lemmas: matrix inversion -/

/-- If the determinant is nonzero, `invertMat` is a right inverse of the matrix
under `matMulMV`. -/
theorem matMulMV_invertMat {α : Type} [Field α] (A : Matrix3x3 α)
    (h : detMat A ≠ 0) (x y z : α) :
    matMulMV A (matMulMV (invertMat A) x y z).x (matMulMV (invertMat A) x y z).y
      (matMulMV (invertMat A) x y z).z = ⟨x, y, z⟩ := by
  have h' : A.m00 * (A.m11 * A.m22 - A.m21 * A.m12) -
      A.m01 * (A.m10 * A.m22 - A.m12 * A.m20) +
      A.m02 * (A.m10 * A.m21 - A.m11 * A.m20) ≠ 0 := by
    simpa [detMat] using h
  simp only [matMulMV, invertMat, detMat, Vector3.mk.injEq]
  refine ⟨?_, ?_, ?_⟩ <;> field_simp <;> ring

/-- The forward matrix of `calcMatrices` maps `(1, 1, 1)` to the white
tristimulus whenever the lifted-primaries matrix is invertible. -/
theorem calcMatrices_white (r g b : Chromaticity) (w : Vector3 ℝ)
    (h : detMat (primariesMatrix r g b) ≠ 0) :
    matMulMV (calcMatrices r g b w).xyz 1 1 1 = w := by
  obtain ⟨wx, wy, wz⟩ := w
  have key := matMulMV_invertMat (primariesMatrix r g b) h wx wy wz
  have kx := congrArg Vector3.x key
  have ky := congrArg Vector3.y key
  have kz := congrArg Vector3.z key
  simp only [matMulMV, primariesMatrix] at kx ky kz
  simp only [calcMatrices, matMulMV, primariesMatrix, Vector3.mk.injEq]
  refine ⟨?_, ?_, ?_⟩
  · linear_combination kx
  · linear_combination ky
  · linear_combination kz

/-- C6: for all chromaticities and every white tristimulus, when the matrix of
lifted primaries (columns `{x, y, 1 - x - y}`) is invertible, the forward matrix
`M = calcMatrices(r, g, b, w).xyz` satisfies `M * (1, 1, 1) = w` exactly over
real arithmetic. -/
theorem c6_forward_matrix_white (r g b : Chromaticity) (w : Vector3 ℝ)
    (h : detMat (primariesMatrix r g b) ≠ 0) :
    matMulMV (calcMatrices r g b w).xyz 1 1 1 = w :=
  calcMatrices_white r g b w h

/-- Witness for C6 at the sRGB primaries and the lifted D65 white tristimulus. -/
theorem c6_forward_matrix_white_witness :
    detMat (primariesMatrix ⟨0.64, 0.33⟩ ⟨0.30, 0.60⟩ ⟨0.15, 0.06⟩) ≠ 0 ∧
    matMulMV (calcMatrices ⟨0.64, 0.33⟩ ⟨0.30, 0.60⟩ ⟨0.15, 0.06⟩
      ⟨0.3127, 0.3290, 0.3583⟩).xyz 1 1 1 = ⟨0.3127, 0.3290, 0.3583⟩ := by
  have h : detMat (primariesMatrix ⟨0.64, 0.33⟩ ⟨0.30, 0.60⟩ ⟨0.15, 0.06⟩) ≠ 0 := by
    norm_num [detMat, primariesMatrix]
  exact ⟨h, c6_forward_matrix_white ⟨0.64, 0.33⟩ ⟨0.30, 0.60⟩ ⟨0.15, 0.06⟩
    ⟨0.3127, 0.3290, 0.3583⟩ h⟩

/-! ## C1: the SDR/HDR white tristimuli of `calcConversionInfo` -/

/-- The gamma inverse curve fixes 1 and `clamp01` fixes 1, so the linearized
white input of `toXyz` on the sRGB profile is `(1, 1, 1)`. -/
theorem applyInverse_gamma_one (g : ℝ) : (Curve.gamma g).applyInverse (clamp01 1) = 1 := by
  have h1 : clamp01 (1 : ℝ) = 1 := by norm_num [clamp01]
  rw [h1]
  simp [Curve.applyInverse, Real.one_rpow]

/-- C1: the claim says `calcConversionInfo` uses a white tristimulus with
`Y = 1` for the SDR pair and `Y = luminance` for the HDR pair, so that
`toXyz({1,1,1})` on the built-in sRGB profile has `Y ≈ 1` (SDR) and `Y ≈ 80`
(HDR).  The code lifts the raw white chromaticity to `{x, y, 1 - x - y}`
without dividing by `y`: on sRGB (D65, luminance 80) the white input maps to
`Y = 0.329` in SDR mode and `Y = 26.32` in HDR mode, not 1 and 80. -/
theorem c1_srgb_white_y :
    (∀ w : WhitePoint, (sdrWhitePoint w).y = w.chromaticity.y ∧
      (hdrWhitePoint w).y = w.chromaticity.y * w.luminance) ∧
    ((mkRgbProfile srgb).toXyz ⟨1, 1, 1⟩ false).y = 0.329 ∧
    ((mkRgbProfile srgb).toXyz ⟨1, 1, 1⟩ true).y = 26.32 ∧
    (0.329 : ℝ) ≠ 1 ∧ (26.32 : ℝ) ≠ 80 := by
  refine ⟨fun w => ⟨rfl, rfl⟩, ?_⟩
  have hdet : detMat (primariesMatrix ⟨0.64, 0.33⟩ ⟨0.30, 0.60⟩ ⟨0.15, 0.06⟩) ≠ 0 := by
    norm_num [detMat, primariesMatrix]
  have hsdr := calcMatrices_white ⟨0.64, 0.33⟩ ⟨0.30, 0.60⟩ ⟨0.15, 0.06⟩
    (sdrWhitePoint srgb.whitePoint) hdet
  have hhdr := calcMatrices_white ⟨0.64, 0.33⟩ ⟨0.30, 0.60⟩ ⟨0.15, 0.06⟩
    (hdrWhitePoint srgb.whitePoint) hdet
  refine ⟨?_, ?_, by norm_num, by norm_num⟩
  · have e1 : (mkRgbProfile srgb).toXyz ⟨1, 1, 1⟩ false =
        matMulMV (calcMatrices ⟨0.64, 0.33⟩ ⟨0.30, 0.60⟩ ⟨0.15, 0.06⟩
          (sdrWhitePoint srgb.whitePoint)).xyz 1 1 1 := by
      simp [RgbProfile.toXyz, mkRgbProfile, srgb, calcConversionInfo,
        applyInverse_gamma_one]
    rw [e1, hsdr]
    norm_num [sdrWhitePoint, srgb]
  · have e2 : (mkRgbProfile srgb).toXyz ⟨1, 1, 1⟩ true =
        matMulMV (calcMatrices ⟨0.64, 0.33⟩ ⟨0.30, 0.60⟩ ⟨0.15, 0.06⟩
          (hdrWhitePoint srgb.whitePoint)).xyz 1 1 1 := by
      simp [RgbProfile.toXyz, mkRgbProfile, srgb, calcConversionInfo,
        applyInverse_gamma_one]
    rw [e2, hhdr]
    norm_num [hdrWhitePoint, sdrWhitePoint, srgb]

/-! ## C2: `getHeader` ignores `start` for the later fields -/

/-- An embedded ICC header: 4 leading bytes of other data, then a 128-byte
header whose profile-class field (relative offset 12) is `"mntr"`. -/
def embeddedHeaderBuf : List ℕ :=
  [0, 0, 0, 0] ++ (List.replicate 12 0 ++ [109, 110, 116, 114] ++ List.replicate 112 0)

set_option maxRecDepth 40000 in
/-- C2: the claim says `getHeader(buffer, start)` reads every field at its
fixed offset relative to `start` (profile class at `start + 12`, and so on), so
parsing an embedded profile at a nonzero `start` equals parsing the same 128
bytes at start 0.  The code adds `offset` only for the first three fields and
reads the rest at absolute positions: at `start = 4` the profile class comes
from absolute bytes 12..15 (here zeros) instead of `start + 12` (here
`"mntr"`), so the embedded parse disagrees with the shifted parse. -/
theorem c2_header_offset_ignored :
    (getHeader embeddedHeaderBuf 4).profileClass = [0, 0, 0, 0] ∧
    (getHeader (embeddedHeaderBuf.drop 4) 0).profileClass = [109, 110, 116, 114] ∧
    (getHeader embeddedHeaderBuf 4).profileClass ≠
      (getHeader (embeddedHeaderBuf.drop 4) 0).profileClass := by
  refine ⟨by decide, by decide, by decide⟩

/-! ## C5: `getTagTable` on empty and truncated buffers -/

/-- A 132-byte buffer whose tag count (uint32 at 128) is 1, but whose single
12-byte tag-table entry lies entirely past the end of the buffer. -/
def truncatedTagBuf : List ℕ := List.replicate 128 0 ++ [0, 0, 0, 1]

set_option maxRecDepth 40000 in
/-- Counterexample to C5 as stated: on a buffer whose declared tag count reads
past the end, `getTagTable` does not fail; the out-of-range reads yield an
empty signature (`subarray` clamps) and zero offset/size (`undefined` bytes
coerce to 0), producing a garbage entry.  The function is total and returns
this table, so no error path exists. -/
theorem c5_truncated_reads_garbage :
    getTagTable truncatedTagBuf 0 128 =
      [([], { signature := [], offset := 0, size := 0, data := none })] := by
  decide

set_option maxRecDepth 40000 in
/-- C5 (amended): `getTagTable` returns an empty mapping when the uint32 tag
count at `start + 128` is 0; when the declared tag count would read past the
buffer's end it does not fail — out-of-range bytes are read as zeros and
signatures are truncated, yielding garbage entries (shown on the concrete
truncated buffer). -/
theorem c5_tag_table :
    (∀ (buffer : List ℕ) (start : ℤ), getUint32 buffer (start + 128) = 0 →
      getTagTable buffer start 128 = []) ∧
    getTagTable truncatedTagBuf 0 128 =
      [([], { signature := [], offset := 0, size := 0, data := none })] := by
  constructor
  · intro buffer start h
    have h0 : getUint32 buffer (start + 128 + 0) = 0 := by simpa using h
    simp [getTagTable, h, h0]
  · decide

set_option maxRecDepth 40000 in
/-- Witness for C5's count-zero branch on an all-zero 132-byte buffer. -/
theorem c5_tag_table_witness : getTagTable (List.replicate 132 0) 0 128 = [] :=
  c5_tag_table.1 (List.replicate 132 0) 0 (by decide)

/-! ## Helper lemmas: the byte codec -/

/-- Writing a byte never changes the buffer length. -/
theorem length_writeByte (buffer : List ℕ) (i : ℤ) (v : ℕ) :
    (writeByte buffer i v).length = buffer.length := by
  unfold writeByte
  split <;> simp

/-- Reading back the byte just written (in range) gives the value mod 256. -/
theorem byteAt_writeByte_self (buffer : List ℕ) (i : ℤ) (v : ℕ)
    (h : 0 ≤ i ∧ i < (buffer.length : ℤ)) :
    byteAt (writeByte buffer i v) i = v % 256 := by
  unfold writeByte byteAt
  rw [if_pos h]
  have hlen : (buffer.set i.toNat (v % 256)).length = buffer.length := by simp
  rw [if_pos (by rw [hlen]; exact_mod_cast h)]
  have hi : i.toNat < buffer.length := by omega
  rw [List.getD_eq_getElem _ _ (by simpa using hi)]
  simp [List.getElem_set_self]

/-- Reading any other index is unaffected by a byte write. -/
theorem byteAt_writeByte_ne (buffer : List ℕ) (i j : ℤ) (v : ℕ) (hne : i ≠ j) :
    byteAt (writeByte buffer i v) j = byteAt buffer j := by
  unfold writeByte byteAt
  split
  · next hi =>
    have hlen : (buffer.set i.toNat (v % 256)).length = buffer.length := by simp
    rw [hlen]
    split
    · next hj =>
      have hij : i.toNat ≠ j.toNat := by omega
      have hjn : j.toNat < buffer.length := by omega
      rw [List.getD_eq_getElem _ _ (by simpa [hlen] using hjn),
        List.getD_eq_getElem _ _ (by simpa using hjn)]
      simp [List.getElem_set_ne hij]
    · rfl
  · rfl

/-- The 32-bit pattern is below `2^32`. -/
theorem pat32_lt (v : ℤ) : pat32 v < 2 ^ 32 := by
  unfold pat32
  omega

/-- Reading a pattern signed and taking the pattern again is the identity
below `2^32`. -/
theorem pat32_sint32 (p : ℕ) (h : p < 2 ^ 32) : pat32 (sint32 p) = p := by
  unfold pat32 sint32
  split <;> omega

/-- `getUint32` directly after `setUint32` at the same in-range offset returns
the signed reading of the written pattern. -/
theorem getUint32_setUint32 (buffer : List ℕ) (value : ℤ) (off : ℤ)
    (h0 : 0 ≤ off) (h4 : off + 4 ≤ (buffer.length : ℤ)) :
    getUint32 (setUint32 buffer value off) off = sint32 (pat32 value) := by
  have hb : (buffer.length : ℤ) = buffer.length := rfl
  have hr0 : 0 ≤ off + 0 ∧ off + 0 < (buffer.length : ℤ) := by omega
  have hr1 : 0 ≤ off + 1 ∧ off + 1 < (buffer.length : ℤ) := by omega
  have hr2 : 0 ≤ off + 2 ∧ off + 2 < (buffer.length : ℤ) := by omega
  have hr3 : 0 ≤ off + 3 ∧ off + 3 < (buffer.length : ℤ) := by omega
  unfold setUint32
  have hp := pat32_lt value
  set p := pat32 value with hp_def
  set b0 := writeByte buffer (off + 0) (p / 2 ^ 24) with hb0
  set b1 := writeByte b0 (off + 1) (p / 2 ^ 16 % 256) with hb1
  set b2 := writeByte b1 (off + 2) (p / 2 ^ 8 % 256) with hb2
  have hlen0 : (b0.length : ℤ) = buffer.length := by rw [hb0, length_writeByte]
  have hlen1 : (b1.length : ℤ) = buffer.length := by rw [hb1, length_writeByte]; exact hlen0
  have hlen2 : (b2.length : ℤ) = buffer.length := by rw [hb2, length_writeByte]; exact hlen1
  have e0 : byteAt (writeByte b2 (off + 3) (p % 256)) (off + 0) = p / 2 ^ 24 % 256 := by
    rw [byteAt_writeByte_ne _ _ _ _ (by omega), hb2,
      byteAt_writeByte_ne _ _ _ _ (by omega), hb1,
      byteAt_writeByte_ne _ _ _ _ (by omega), hb0,
      byteAt_writeByte_self _ _ _ (by omega)]
  have e1 : byteAt (writeByte b2 (off + 3) (p % 256)) (off + 1) = p / 2 ^ 16 % 256 := by
    rw [byteAt_writeByte_ne _ _ _ _ (by omega), hb2,
      byteAt_writeByte_ne _ _ _ _ (by omega), hb1,
      byteAt_writeByte_self _ _ _ (by omega)]
    omega
  have e2 : byteAt (writeByte b2 (off + 3) (p % 256)) (off + 2) = p / 2 ^ 8 % 256 := by
    rw [byteAt_writeByte_ne _ _ _ _ (by omega), hb2,
      byteAt_writeByte_self _ _ _ (by omega)]
    omega
  have e3 : byteAt (writeByte b2 (off + 3) (p % 256)) (off + 3) = p % 256 := by
    rw [byteAt_writeByte_self _ _ _ (by omega)]
    omega
  unfold getUint32
  rw [e0, e1, e2, e3]
  have hrecomp : p / 2 ^ 24 % 256 * 2 ^ 24 + p / 2 ^ 16 % 256 * 2 ^ 16 +
      p / 2 ^ 8 % 256 * 2 ^ 8 + p % 256 = p := by omega
  rw [hrecomp]

/-- C9: for every value representable as `k / 65536` with
`-32768 ≤ v < 32768`, writing it with `setS15Fixed16` and reading it back with
`getS15Fixed16` at the same (in-range) offset returns exactly `v`, including
negative values and `v = -32768`. -/
theorem c9_s15fixed16_round_trip (buffer : List ℕ) (v : ℚ) (off : ℤ)
    (hrep : ∃ k : ℤ, v = (k : ℚ) / 65536) (hlo : -32768 ≤ v) (hhi : v < 32768)
    (h0 : 0 ≤ off) (h4 : off + 4 ≤ (buffer.length : ℤ)) :
    getS15Fixed16 (setS15Fixed16 buffer v off) off = v := by
  obtain ⟨k, hk⟩ := hrep
  set s : ℤ := ⌊v⌋ with hs_def
  have hs_lo : -32768 ≤ s := Int.le_floor.mpr (by exact_mod_cast hlo)
  have hs_hi : s < 32768 := Int.floor_lt.mpr (by exact_mod_cast hhi)
  have hfrac_int : ((v : ℚ) - s) * 65536 = ((k - 65536 * s : ℤ) : ℚ) := by
    push_cast
    rw [hk]
    ring
  have hfl : ⌊((v : ℚ) - s) * 65536⌋ = k - 65536 * s := by
    rw [hfrac_int, Int.floor_intCast]
  have hfrac_lo : (0 : ℚ) ≤ (v - s) * 65536 := by
    have := Int.floor_le v
    rw [← hs_def] at this
    nlinarith
  have hfrac_hi : ((v : ℚ) - s) * 65536 < 65536 := by
    have := Int.lt_floor_add_one v
    rw [← hs_def] at this
    nlinarith
  have hf_lo : 0 ≤ k - 65536 * s := by
    have : ((0 : ℤ) : ℚ) ≤ ((k - 65536 * s : ℤ) : ℚ) := by rw [← hfrac_int]; exact hfrac_lo
    exact_mod_cast this
  have hf_hi : k - 65536 * s < 65536 := by
    have : ((k - 65536 * s : ℤ) : ℚ) < ((65536 : ℤ) : ℚ) := by
      rw [← hfrac_int]
      exact_mod_cast hfrac_hi
    exact_mod_cast this
  -- the written pattern
  set f : ℤ := k - 65536 * s with hf_def
  have hsetS15 : setS15Fixed16 buffer v off =
      setUint32 buffer (sint32 ((s % 65536).toNat * 2 ^ 16 + f.toNat)) off := by
    simp only [setS15Fixed16]
    rw [← hs_def, hfl]
  set p : ℕ := (s % 65536).toNat * 2 ^ 16 + f.toNat with hp_def
  have hp_lt : p < 2 ^ 32 := by
    have h1 : (s % 65536).toNat < 65536 := by omega
    have h2 : f.toNat < 65536 := by omega
    omega
  rw [hsetS15]
  simp only [getS15Fixed16]
  rw [getUint32_setUint32 _ _ _ h0 h4, pat32_sint32 p hp_lt, pat32_sint32 p hp_lt]
  -- evaluate the sign split, integer bits and fraction bits of the pattern
  have hfracbits : p % 2 ^ 16 = f.toNat := by omega
  have hffq : ((f.toNat : ℚ)) = (f : ℚ) := by
    have : ((f.toNat : ℤ)) = f := Int.toNat_of_nonneg hf_lo
    exact_mod_cast congrArg (fun t : ℤ => (t : ℚ)) this
  rcases le_or_lt 0 s with hsge | hslt
  · -- nonnegative integer part: pattern below 2^31
    have hnotneg : ¬ 2 ^ 31 ≤ p := by omega
    have hint : p / 2 ^ 16 % 2 ^ 15 = s.toNat := by omega
    rw [if_neg hnotneg, hint, hfracbits]
    have hsq : ((s.toNat : ℤ)) = s := Int.toNat_of_nonneg hsge
    rw [hsq, hffq, hk, hf_def]
    push_cast
    ring
  · -- negative integer part: sign bit set, two's-complement reading
    have hneg : 2 ^ 31 ≤ p := by omega
    have hint : p / 2 ^ 16 % 2 ^ 15 = (s + 32768).toNat := by omega
    rw [if_pos hneg, hint, hfracbits]
    have hsq : (((s + 32768).toNat : ℤ)) = s + 32768 := Int.toNat_of_nonneg (by omega)
    rw [hsq, hffq, hk, hf_def]
    push_cast
    ring

/-- Witness for C9 at `v = -3/2` on a 4-byte buffer. -/
theorem c9_s15fixed16_round_trip_witness :
    getS15Fixed16 (setS15Fixed16 [0, 0, 0, 0] (-3 / 2) 0) 0 = -3 / 2 :=
  c9_s15fixed16_round_trip [0, 0, 0, 0] (-3 / 2) 0 ⟨-98304, by norm_num⟩
    (by norm_num) (by norm_num) (by norm_num) (by decide)

/-! ## C3: missing required tags give a TypeError, not a missing-tag error -/

/-- C3: the claim says an RGB-space ICC profile missing one of the six required
tags fails with a missing-tag error naming the tag.  The constructor has no
such check: every `!`-asserted dereference of an absent tag raises the JS
`TypeError` (`JsError.typeError` here), and the code's error type has no
missing-tag variant at all, so whichever of the six tags is absent the result
is the same anonymous `typeError`. -/
theorem c3_missing_tag_type_error (icc : IccProfileInfo)
    (hspace : icc.header.profileSpace = rgbSpaceSig)
    (hmissing : icc.tags.rXYZ = none ∨ icc.tags.gXYZ = none ∨
      icc.tags.bXYZ = none ∨ icc.tags.rTRC = none ∨
      icc.tags.gTRC = none ∨ icc.tags.bTRC = none) :
    profileOf icc = .error .typeError := by
  obtain ⟨header, tags⟩ := icc
  obtain ⟨rX, gX, bX, rT, gT, bT⟩ := tags
  simp only [profileOf]
  rw [if_pos hspace]
  rcases rX with _ | rvs
  · rfl
  · rcases rvs with _ | ⟨r0, rrest⟩
    · rfl
    · rcases gX with _ | gvs
      · rfl
      · rcases gvs with _ | ⟨g0, grest⟩
        · rfl
        · rcases bX with _ | bvs
          · rfl
          · rcases bvs with _ | ⟨b0, brest⟩
            · rfl
            · rcases rT with _ | rcv
              · rfl
              · rcases gT with _ | gcv
                · rfl
                · rcases bT with _ | bcv
                  · rfl
                  · rcases hmissing with h | h | h | h | h | h <;> simp at h

/-- A header whose color space is `"RGB "` and whose other fields are zeroed. -/
def rgbOnlyHeader : IccHeader :=
  { profileSize := 0, preferredCmmType := [], version := (0, 0, 0)
    profileClass := [], profileSpace := rgbSpaceSig, pcsSpace := []
    creationDate := ⟨0, 0, 0, 0, 0, 0⟩, creationPlatform := [], profileFlags := 0
    deviceManufacturer := [], deviceModel := [], deviceAttributes := 0
    renderingIntent := 0, pcsWhitePoint := ⟨0, 0, 0⟩ }

/-- An RGB-space profile info with an empty tag table. -/
def rgbInfoNoTags : IccProfileInfo :=
  { header := rgbOnlyHeader, tags := ⟨none, none, none, none, none, none⟩ }

/-- Witness for C3 on the RGB-space profile with no tags at all. -/
theorem c3_missing_tag_type_error_witness :
    profileOf rgbInfoNoTags = .error .typeError :=
  c3_missing_tag_type_error rgbInfoNoTags rfl (Or.inl rfl)

/-! ## C4: `IccRgbProfile.fromXyz` uses the red curve for all channels -/

/-- C4: after the inverse-matrix multiply, `fromXyz` pushes all three channel
values through `trc[0]` (the red channel's inverse curve) rather than each
channel's own curve; consequently its output is unchanged under any change of
the green and blue curves, so when the red and green TRCs differ the green
output channel is still computed with the red curve. -/
theorem c4_fromXyz_red_curve (p : IccRgbProfile) (v : Vector3 ℝ) (hdr : Bool) :
    p.fromXyz v hdr =
      [p.trc0.applyInverse (matMulMV p.rgbMatrix v.x v.y v.z).x,
       p.trc0.applyInverse (matMulMV p.rgbMatrix v.x v.y v.z).y,
       p.trc0.applyInverse (matMulMV p.rgbMatrix v.x v.y v.z).z] ∧
    ∀ q : IccRgbProfile, q.rgbMatrix = p.rgbMatrix → q.trc0 = p.trc0 →
      q.fromXyz v hdr = p.fromXyz v hdr := by
  refine ⟨rfl, fun q h1 h2 => ?_⟩
  simp [IccRgbProfile.fromXyz, h1, h2]

/-- The identity matrix, used to build concrete witness profiles. -/
def idMat3 : Matrix3x3 ℝ :=
  { m00 := 1, m01 := 0, m02 := 0, m10 := 0, m11 := 1, m12 := 0
    m20 := 0, m21 := 0, m22 := 1 }

/-- A concrete ICC RGB profile whose green curve is `gamma 2` while the red
curve is the identity. -/
noncomputable def iccProfileGammaGreen : IccRgbProfile :=
  { serializable := rgbInfoNoTags, xyzMatrix := idMat3, rgbMatrix := idMat3
    trc0 := .identity, trc1 := .gamma 2, trc2 := .identity }

/-- The same profile with the green curve replaced by the identity. -/
noncomputable def iccProfileIdGreen : IccRgbProfile :=
  { serializable := rgbInfoNoTags, xyzMatrix := idMat3, rgbMatrix := idMat3
    trc0 := .identity, trc1 := .identity, trc2 := .identity }

/-- Witness for C4: the two concrete profiles differ in their green TRC, yet
`fromXyz` returns identical outputs, because the green channel is computed
with the red curve. -/
theorem c4_fromXyz_red_curve_witness :
    iccProfileGammaGreen.trc1 ≠ iccProfileIdGreen.trc1 ∧
    iccProfileGammaGreen.fromXyz ⟨1, 2, 3⟩ false =
      iccProfileIdGreen.fromXyz ⟨1, 2, 3⟩ false :=
  ⟨fun h => Curve.noConfusion h,
    (c4_fromXyz_red_curve iccProfileIdGreen ⟨1, 2, 3⟩ false).2
      iccProfileGammaGreen rfl rfl⟩

/-! ## C10: the ICC profile ignores the hdr flag -/

/-- C10: both conversion directions of the ICC-derived RGB profile ignore the
`hdr` flag (the class holds a single matrix pair, with no SDR/HDR split). -/
theorem c10_icc_ignores_hdr (p : IccRgbProfile) (c : List ℝ) (v : Vector3 ℝ) :
    p.toXyz c true = p.toXyz c false ∧ p.fromXyz v true = p.fromXyz v false :=
  ⟨rfl, rfl⟩

/-! ## Helper lemmas: binary search on a strictly ascending list -/

/-- On a strictly ascending list, the search loop returns the index of a
present value whenever the window `[low, high]` contains that index. -/
theorem binarySearchAux_hit {α : Type} [LinearOrder α] (a : List α)
    (hs : List.Sorted (· < ·) a) (j : ℕ) (hj : j < a.length) :
    ∀ (m : ℕ) (low high : ℤ), (high + 1 - low).toNat ≤ m → 0 ≤ low →
      low ≤ (j : ℤ) → (j : ℤ) ≤ high → high < (a.length : ℤ) →
      binarySearchAux a a[j] low high = (j : ℤ) := by
  intro m
  induction m with
  | zero => intro low high hm _ h1 h2 _; omega
  | succ m ih =>
    intro low high hm h0 h1 h2 h3
    have hlh : low ≤ high := le_trans h1 h2
    rw [binarySearchAux, if_pos hlh]
    have hmlo : low ≤ (low + high) / 2 := by omega
    have hmhi : (low + high) / 2 ≤ high := by omega
    have hmidn : ((low + high) / 2).toNat < a.length := by omega
    rw [List.getD_eq_getElem a a[j] hmidn]
    have hsg := List.pairwise_iff_getElem.mp hs
    rcases lt_trichotomy a[((low + high) / 2).toNat] a[j] with hlt | heq | hgt
    · rw [if_pos hlt]
      have hmj : ((low + high) / 2).toNat < j := by
        by_contra hc
        push_neg at hc
        have hle : a[j] ≤ a[((low + high) / 2).toNat] := by
          rcases Nat.eq_or_lt_of_le hc with he | hl
          · simp [he]
          · exact le_of_lt (hsg j _ hj hmidn hl)
        exact absurd hlt (not_lt_of_ge hle)
      exact ih ((low + high) / 2 + 1) high (by omega) (by omega) (by omega) h2 h3
    · rw [if_neg (by rw [heq]; exact lt_irrefl _),
        if_neg (by rw [heq]; exact lt_irrefl _)]
      have hje : ((low + high) / 2).toNat = j := by
        by_contra hc
        rcases Nat.lt_or_ge ((low + high) / 2).toNat j with hl | hge
        · exact absurd heq (ne_of_lt (hsg _ j hmidn hj hl))
        · have hl : j < ((low + high) / 2).toNat := by omega
          exact absurd heq (ne_of_gt (hsg j _ hj hmidn hl))
      omega
    · rw [if_neg (asymm hgt), if_pos hgt]
      have hmj : j < ((low + high) / 2).toNat := by
        by_contra hc
        push_neg at hc
        have hle : a[((low + high) / 2).toNat] ≤ a[j] := by
          rcases Nat.eq_or_lt_of_le hc with he | hl
          · simp [he]
          · exact le_of_lt (hsg _ j hmidn hj hl)
        exact absurd hgt (not_lt_of_ge hle)
      exact ih low ((low + high) / 2 - 1) (by omega) h0 h1 (by omega) (by omega)

/-- The length of `takeWhile` is `k` when the predicate holds on the first `k`
elements and fails on element `k`. -/
theorem takeWhile_length_eq {α : Type} (p : α → Bool) :
    ∀ (a : List α) (k : ℕ), k ≤ a.length →
      (∀ (i : ℕ) (hi : i < a.length), i < k → p a[i] = true) →
      (∀ hk : k < a.length, p a[k] = false) →
      (a.takeWhile p).length = k := by
  intro a
  induction a with
  | nil =>
    intro k hk _ _
    simp at hk ⊢
    omega
  | cons x xs ih =>
    intro k hk h1 h2
    cases k with
    | zero =>
      have hx : p x = false := h2 (by simp)
      simp [List.takeWhile_cons, hx]
    | succ k' =>
      have hx : p x = true := h1 0 (by simp) (by omega)
      simp only [List.takeWhile_cons, hx, if_true, List.length_cons]
      congr 1
      refine ih k' (by simpa using hk) ?_ ?_
      · intro i hi hik
        have := h1 (i + 1) (by simpa using Nat.succ_lt_succ hi) (by omega)
        simpa using this
      · intro hk'
        have := h2 (by simpa using Nat.succ_lt_succ hk')
        simpa using this

/-- On a strictly ascending list that does not contain the query, the search
loop returns `-(count + 1)` where `count` is the number of leading elements
below the query, provided the window invariants hold. -/
theorem binarySearchAux_miss {α : Type} [LinearOrder α] (a : List α)
    (hs : List.Sorted (· < ·) a) (v : α)
    (hv : ∀ (i : ℕ) (hi : i < a.length), a[i] ≠ v) :
    ∀ (m : ℕ) (low high : ℤ), (high + 1 - low).toNat ≤ m → 0 ≤ low →
      low ≤ high + 1 → high ≤ (a.length : ℤ) - 1 →
      (∀ (i : ℕ) (hi : i < a.length), (i : ℤ) < low → a[i] < v) →
      (∀ (i : ℕ) (hi : i < a.length), high < (i : ℤ) → v < a[i]) →
      binarySearchAux a v low high =
        -(((a.takeWhile fun z => decide (z < v)).length : ℤ) + 1) := by
  intro m
  induction m with
  | zero =>
    intro low high hm h0 h1 h2 inv1 inv2
    have hnl : ¬ low ≤ high := by omega
    rw [binarySearchAux, if_neg hnl]
    have hT : (a.takeWhile fun z => decide (z < v)).length = low.toNat := by
      refine takeWhile_length_eq _ a low.toNat (by omega) ?_ ?_
      · intro i hi hik
        exact decide_eq_true (inv1 i hi (by omega))
      · intro hk
        exact decide_eq_false (not_lt_of_gt (inv2 low.toNat hk (by omega)))
    rw [hT]
    omega
  | succ m ih =>
    intro low high hm h0 h1 h2 inv1 inv2
    by_cases hlh : low ≤ high
    case neg =>
      rw [binarySearchAux, if_neg hlh]
      have hT : (a.takeWhile fun z => decide (z < v)).length = low.toNat := by
        refine takeWhile_length_eq _ a low.toNat (by omega) ?_ ?_
        · intro i hi hik
          exact decide_eq_true (inv1 i hi (by omega))
        · intro hk
          exact decide_eq_false (not_lt_of_gt (inv2 low.toNat hk (by omega)))
      rw [hT]
      omega
    case pos =>
      rw [binarySearchAux, if_pos hlh]
      have hmlo : low ≤ (low + high) / 2 := by omega
      have hmhi : (low + high) / 2 ≤ high := by omega
      have hmidn : ((low + high) / 2).toNat < a.length := by omega
      rw [List.getD_eq_getElem a v hmidn]
      have hsg := List.pairwise_iff_getElem.mp hs
      rcases lt_trichotomy a[((low + high) / 2).toNat] v with hlt | heq | hgt
      · rw [if_pos hlt]
        refine ih ((low + high) / 2 + 1) high (by omega) (by omega) (by omega) h2 ?_ inv2
        intro i hi hilow
        rcases Nat.eq_or_lt_of_le (show i ≤ ((low + high) / 2).toNat by omega) with he | hl
        · simp only [he]
          exact hlt
        · exact lt_trans (hsg i _ hi hmidn hl) hlt
      · exact absurd heq (hv _ hmidn)
      · rw [if_neg (asymm hgt), if_pos hgt]
        refine ih low ((low + high) / 2 - 1) (by omega) h0 (by omega) (by omega) inv1 ?_
        intro i hi hihigh
        rcases Nat.eq_or_lt_of_le (show ((low + high) / 2).toNat ≤ i by omega) with he | hl
        · simp only [← he]
          exact hgt
        · exact lt_trans hgt (hsg _ i hmidn hi hl)

/-- `binarySearch` finds the (unique) index of a present value in a strictly
ascending list. -/
theorem binarySearch_hit {α : Type} [LinearOrder α] (a : List α)
    (hs : List.Sorted (· < ·) a) (j : ℕ) (hj : j < a.length) :
    binarySearch a a[j] = (j : ℤ) := by
  unfold binarySearch
  exact binarySearchAux_hit a hs j hj a.length 0 ((a.length : ℤ) - 1)
    (by omega) (by omega) (by omega) (by omega) (by omega)

/-- `binarySearch` on a missing value returns the insertion point (the count of
elements below the query) encoded as `-(count + 1)`. -/
theorem binarySearch_miss {α : Type} [LinearOrder α] (a : List α)
    (hs : List.Sorted (· < ·) a) (v : α) (hv : v ∉ a) :
    binarySearch a v = -(((a.takeWhile fun z => decide (z < v)).length : ℤ) + 1) := by
  unfold binarySearch
  refine binarySearchAux_miss a hs v
    (fun i hi h => hv (h ▸ List.getElem_mem hi)) a.length 0 ((a.length : ℤ) - 1)
    (by omega) (by omega) (by omega) (by omega) ?_ ?_
  · intro i hi h
    exact absurd h (by omega)
  · intro i hi h
    exact absurd h (by omega)

/-- `applyInverse` on a strictly ascending table at a present value returns the
value's index normalized by `length - 1`. -/
theorem applyInverse_lut_found (values : List ℝ)
    (hsort : List.Sorted (· < ·) values) (j : ℕ) (hj : j < values.length) :
    (Curve.lut values).applyInverse values[j] = (j : ℝ) / ((values.length : ℝ) - 1) := by
  simp only [Curve.applyInverse]
  rw [binarySearch_hit values hsort j hj, if_pos (Int.natCast_nonneg j)]
  norm_num

/-- `applyInverse` on a strictly ascending table at a missing value returns the
insertion index (count of elements below the query) normalized by
`length - 1`. -/
theorem applyInverse_lut_insertion (values : List ℝ)
    (hsort : List.Sorted (· < ·) values) (y : ℝ) (hy : y ∉ values) :
    (Curve.lut values).applyInverse y =
      ((values.takeWhile fun z => decide (z < y)).length : ℝ) /
        ((values.length : ℝ) - 1) := by
  simp only [Curve.applyInverse]
  rw [binarySearch_miss values hsort y hy]
  rw [if_neg (by omega)]
  norm_num

/-! ## C7: curve round trip -/

/-- Well-formedness from the claim: identity; gamma with positive exponent;
or a lookup table with at least two ascending (strictly increasing) values. -/
def wellFormed : Curve → Prop
  | .identity => True
  | .gamma g => 0 < g
  | .lut values => 2 ≤ values.length ∧ List.Sorted (· < ·) values

/-- The claim's tolerance: exact for identity and gamma, `1 / (n - 1)` for a
lookup table with `n` samples. -/
noncomputable def tolerance : Curve → ℝ
  | .identity => 0
  | .gamma _ => 0
  | .lut values => 1 / ((values.length : ℝ) - 1)

/-- C7: for every well-formed curve and every `x` in `[0, 1]`,
`applyInverse(c, apply(c, x))` is within the curve's tolerance of `x`: exact
for identity and gamma curves over exact real arithmetic, and within
`1 / (n - 1)` for a lookup table with `n` samples. -/
theorem c7_round_trip (c : Curve) (x : ℝ) (hc : wellFormed c) (h0 : 0 ≤ x)
    (h1 : x ≤ 1) : |c.applyInverse (c.apply x) - x| ≤ tolerance c := by
  cases c with
  | identity =>
    simp [Curve.apply, Curve.applyInverse, tolerance]
  | gamma g =>
    have hg : (0 : ℝ) < g := hc
    simp only [Curve.apply, Curve.applyInverse, tolerance]
    rw [← Real.rpow_mul h0, mul_one_div, div_self hg.ne', Real.rpow_one,
      sub_self, abs_zero]
  | lut values =>
    obtain ⟨hn, hsort⟩ := hc
    have hn2 : (2 : ℝ) ≤ (values.length : ℝ) := by exact_mod_cast hn
    have hd : (0 : ℝ) < (values.length : ℝ) - 1 := by linarith
    have ht0 : 0 ≤ ((values.length : ℝ) - 1) * x := mul_nonneg (by linarith) h0
    have ht1 : ((values.length : ℝ) - 1) * x ≤ (values.length : ℝ) - 1 := by
      nlinarith
    have hi0 : 0 ≤ jsRound (((values.length : ℝ) - 1) * x) := by
      refine Int.le_floor.mpr ?_
      push_cast
      linarith
    have hiN : jsRound (((values.length : ℝ) - 1) * x) < (values.length : ℤ) := by
      refine Int.floor_lt.mpr ?_
      push_cast
      linarith
    have hidx : (jsRound (((values.length : ℝ) - 1) * x)).toNat < values.length := by
      omega
    have happly : (Curve.lut values).apply x =
        values[(jsRound (((values.length : ℝ) - 1) * x)).toNat] := by
      simp only [Curve.apply]
      exact List.getD_eq_getElem values 0 hidx
    rw [happly, applyInverse_lut_found values hsort _ hidx]
    have hfl1 : ((jsRound (((values.length : ℝ) - 1) * x) : ℤ) : ℝ) ≤
        ((values.length : ℝ) - 1) * x + 1 / 2 := Int.floor_le _
    have hfl2 : ((values.length : ℝ) - 1) * x + 1 / 2 <
        ((jsRound (((values.length : ℝ) - 1) * x) : ℤ) : ℝ) + 1 :=
      Int.lt_floor_add_one _
    have hcast : (((jsRound (((values.length : ℝ) - 1) * x)).toNat : ℕ) : ℝ) =
        ((jsRound (((values.length : ℝ) - 1) * x) : ℤ) : ℝ) := by
      exact_mod_cast congrArg (fun z : ℤ => (z : ℝ)) (Int.toNat_of_nonneg hi0)
    rw [tolerance, hcast]
    have key : ((jsRound (((values.length : ℝ) - 1) * x) : ℤ) : ℝ) /
          ((values.length : ℝ) - 1) - x =
        (((jsRound (((values.length : ℝ) - 1) * x) : ℤ) : ℝ) -
          ((values.length : ℝ) - 1) * x) / ((values.length : ℝ) - 1) := by
      field_simp
    rw [key, abs_div, abs_of_pos hd]
    have habs : |((jsRound (((values.length : ℝ) - 1) * x) : ℤ) : ℝ) -
        ((values.length : ℝ) - 1) * x| ≤ 1 :=
      abs_le.mpr ⟨by linarith, by linarith⟩
    gcongr

/-- Witness for C7 on the identity curve at `x = 1/2`. -/
theorem c7_round_trip_witness :
    |Curve.identity.applyInverse (Curve.identity.apply (1 / 2 : ℝ)) - 1 / 2| ≤
      tolerance .identity :=
  c7_round_trip .identity (1 / 2) trivial (by norm_num) (by norm_num)

/-! ## C8: `applyInverse` on a lookup table -/

/-- C8: on an ascending lookup table, `applyInverse` returns the exact-match
index over `n - 1` when the query is present, and otherwise the binary-search
insertion index (the count of elements below the query) over `n - 1`, never an
interpolated value; in particular on `[0, 0.5, 1.0]` the query `0.5` gives
`0.5` and the miss `0.25` gives the normalized insertion point `0.5` (not the
interpolated `0.25`). -/
theorem c8_lut_inverse :
    (∀ (values : List ℝ), List.Sorted (· < ·) values →
      ∀ (j : ℕ) (hj : j < values.length),
        (Curve.lut values).applyInverse values[j] =
          (j : ℝ) / ((values.length : ℝ) - 1)) ∧
    (∀ (values : List ℝ), List.Sorted (· < ·) values → ∀ y : ℝ, y ∉ values →
      (Curve.lut values).applyInverse y =
        ((values.takeWhile fun z => decide (z < y)).length : ℝ) /
          ((values.length : ℝ) - 1)) ∧
    (Curve.lut [0, 0.5, 1.0]).applyInverse 0.5 = 0.5 ∧
    (Curve.lut [0, 0.5, 1.0]).applyInverse 0.25 = 0.5 := by
  have hsort : List.Sorted (· < ·) ([0, 0.5, 1.0] : List ℝ) := by
    simp [List.sorted_cons]
    norm_num
  refine ⟨fun values hs j hj => applyInverse_lut_found values hs j hj,
    fun values hs y hy => applyInverse_lut_insertion values hs y hy, ?_, ?_⟩
  · have h1 := applyInverse_lut_found [0, 0.5, 1.0] hsort 1 (by norm_num)
    rw [show (([0, 0.5, 1.0] : List ℝ)[1]) = 0.5 by norm_num] at h1
    rw [h1]
    norm_num
  · have hy : (0.25 : ℝ) ∉ ([0, 0.5, 1.0] : List ℝ) := by
      simp
      norm_num
    rw [applyInverse_lut_insertion _ hsort _ hy]
    have htw : (([0, 0.5, 1.0] : List ℝ).takeWhile
        fun z => decide (z < 0.25)).length = 1 := by
      refine takeWhile_length_eq _ _ 1 (by norm_num) ?_ ?_
      · intro i hi hik
        interval_cases i
        simp
        norm_num
      · intro hk
        simp
        norm_num
    rw [htw]
    norm_num

/-- Witness for C8 at the concrete ascending table `[0, 0.5, 1.0]` and its
middle sample. -/
theorem c8_lut_inverse_witness :
    (Curve.lut [0, 0.5, 1.0]).applyInverse (([0, 0.5, 1.0] : List ℝ)[1]) =
      ((1 : ℕ) : ℝ) / ((([0, 0.5, 1.0] : List ℝ).length : ℝ) - 1) :=
  c8_lut_inverse.1 [0, 0.5, 1.0]
    (by simp [List.sorted_cons]; norm_num) 1 (by norm_num)

end ColorSpec
